import Mathlib

/-!
Verification development for the session-scoped line-change metrics add-on
(lineChangeRecorder / agentFileChangeTracker).

The definitions below are a shallow embedding of the TypeScript source:
pure functions become Lean functions, the external diff / policy-query /
document-read capabilities become function-valued parameters, and the
module-level endpoint cache becomes explicit state passing.
-/

/-- Added/removed line counts, as in the FileDelta interface. -/
structure Delta where
  added : Nat
  removed : Nat
deriving DecidableEq, Repr

/-- One change span returned by the external diff capability
(diffService.computeDiff): original and modified line ranges, with
exclusive end line numbers. -/
structure Change where
  origStart : Nat
  origEndEx : Nat
  modStart : Nat
  modEndEx : Nat
deriving DecidableEq, Repr

/-- Embeds computeAdditionsAndDeletions: sums, over the change spans,
endLineNumberExclusive - startLineNumber on both sides. -/
def computeAdditionsAndDeletions (changes : List Change) : Delta :=
  changes.foldl
    (fun d c =>
      { added := d.added + (c.modEndEx - c.modStart),
        removed := d.removed + (c.origEndEx - c.origStart) })
    { added := 0, removed := 0 }

/-- Embeds the JS regex split on line breaks, text.split applied with the
pattern matching an optional carriage return followed by a line feed:
a carriage-return/line-feed pair or a lone line feed separates segments;
a lone carriage return is ordinary content.  consHead prepends a content
character to the current (first) segment. -/
def consHead (c : Char) : List (List Char) → List (List Char)
  | [] => [[c]]
  | s :: ss => (c :: s) :: ss

/-- Embeds the segment recursion of the JS regex split on line breaks. -/
def splitLinesCh : List Char → List (List Char)
  | [] => [[]]
  | '\n' :: rest => [] :: splitLinesCh rest
  | '\r' :: '\n' :: rest => [] :: splitLinesCh rest
  | '\r' :: rest => consHead '\r' (splitLinesCh rest)
  | c :: rest => consHead c (splitLinesCh rest)

/-- Embeds the JS test text.endsWith of a line feed. -/
def endsWithLf (s : String) : Bool :=
  s.data.getLast? = some '\n'

/-- Embeds the new-file line count of computeSingleFileDelta (part_000):
lines = modified.split on line breaks, then one fewer when the text ends
with a line feed (Nat subtraction models the clamp to zero). -/
def jsLineCountNewFile (s : String) : Nat :=
  let lines := (splitLinesCh s.data).length
  if endsWithLf s then lines - 1 else lines

/-- Modelled from the spec: the number of lines obtained by splitting on
line breaks, where a trailing line break does not contribute an extra
(empty) trailing segment.  Used only to compare against the source-derived
jsLineCountNewFile. -/
def specLineCount (s : String) : Nat :=
  let segs := splitLinesCh s.data
  if segs.getLast? = some ([] : List Char) then segs.length - 1 else segs.length

/-- Embeds computeSingleFileDelta of the session-end variant (part_000):
empty original and non-empty modified is a new-file creation, the
symmetric case a deletion, otherwise the external diff spans are summed
and a zero/zero outcome is discarded.  The external diff capability is a
parameter; snapshot acquisition and file naming are outside this pure core. -/
def computeSingleFileDeltaSE (diff : String → String → List Change)
    (original modified : String) : Option Delta :=
  if original = "" ∧ modified ≠ "" then
    some { added := jsLineCountNewFile modified, removed := 0 }
  else if original ≠ "" ∧ modified = "" then
    some { added := 0, removed := jsLineCountNewFile original }
  else
    let d := computeAdditionsAndDeletions (diff original modified)
    if d.added = 0 ∧ d.removed = 0 then none else some d

/-- Embeds computeSingleFileDelta of the per-file variant
(lineChangeRecorder.ts): no edge cases, the diff spans are summed and a
zero/zero outcome is discarded. -/
def computeSingleFileDeltaPF (diff : String → String → List Change)
    (original modified : String) : Option Delta :=
  let d := computeAdditionsAndDeletions (diff original modified)
  if d.added = 0 ∧ d.removed = 0 then none else some d

/-- File operation kinds of the agent file change tracker. -/
inductive Operation
  | add
  | delete
  | update
deriving DecidableEq, Repr

/-- One IFileChangeStats entry. -/
structure FileChangeStats where
  filePath : String
  addedLines : Nat
  removedLines : Nat
  operation : Operation
deriving DecidableEq, Repr

/-- The IAgentSessionStats session accumulator state. -/
structure SessionStats where
  sessionId : String
  timestamp : String
  totalFilesChanged : Nat
  totalAddedLines : Nat
  totalRemovedLines : Nat
  fileChanges : List FileChangeStats
deriving DecidableEq, Repr

/-- Embeds createNewSession; the generated session id and timestamp are
parameters since they come from the clock and a random source. -/
def createNewSession (sessionId timestamp : String) : SessionStats :=
  { sessionId := sessionId, timestamp := timestamp,
    totalFilesChanged := 0, totalAddedLines := 0, totalRemovedLines := 0,
    fileChanges := [] }

/-- Embeds AgentFileChangeTracker.trackFileChangeWithExactLines: builds the
entry, appends it to fileChanges and adds its counts to the session totals. -/
def trackFileChangeWithExactLines (s : SessionStats) (filePath : String)
    (op : Operation) (addedLines removedLines : Nat) :
    SessionStats × FileChangeStats :=
  let fs : FileChangeStats :=
    { filePath := filePath, addedLines := addedLines,
      removedLines := removedLines, operation := op }
  ({ s with
      fileChanges := s.fileChanges ++ [fs],
      totalFilesChanged := s.totalFilesChanged + 1,
      totalAddedLines := s.totalAddedLines + addedLines,
      totalRemovedLines := s.totalRemovedLines + removedLines }, fs)

/-- Embeds the JS split on a literal one-character line-feed separator on a
character list, as used by trackFileChange and calculateLineDiff. -/
def splitNlCh : List Char → List (List Char)
  | [] => [[]]
  | '\n' :: rest => [] :: splitNlCh rest
  | c :: rest => consHead c (splitNlCh rest)

/-- Embeds the JS split on a literal line-feed separator on a string. -/
def splitNl (s : String) : List String :=
  (splitNlCh s.data).map String.mk

/-- Embeds the inner loop of calculateLineDiff over equal-length line
lists: count the indices whose lines differ (the zip pairs lines by index
up to the shorter length, exactly the loop bound). -/
def zipDifferCount (l1 l2 : List String) : Nat :=
  (l1.zip l2).countP (fun p => p.1 ≠ p.2)

/-- Embeds AgentFileChangeTracker.calculateLineDiff: a pure line-count
comparison; only when the counts are equal are individual lines compared. -/
def calculateLineDiff (oldContent newContent : String) : Delta :=
  let oldLines := splitNl oldContent
  let newLines := splitNl newContent
  let oldLineCount := oldLines.length
  let newLineCount := newLines.length
  if oldLineCount < newLineCount then
    { added := newLineCount - oldLineCount, removed := 0 }
  else if newLineCount < oldLineCount then
    { added := 0, removed := oldLineCount - newLineCount }
  else
    let changedLines := zipDifferCount oldLines newLines
    if 0 < changedLines then
      { added := changedLines, removed := changedLines }
    else
      { added := 0, removed := 0 }

/-- Embeds AgentFileChangeTracker.trackFileChange.  Optional contents model
the optional parameters; the JS truthiness tests treat an empty string like
an absent one.  The entry is pushed and the totals updated unconditionally,
with no zero-delta check. -/
def trackFileChange (s : SessionStats) (filePath : String) (op : Operation)
    (oldContent newContent : Option String) :
    SessionStats × FileChangeStats :=
  let counts : Nat × Nat :=
    match op with
    | Operation.add =>
      match newContent with
      | some nc => if nc = "" then (0, 0) else ((splitNl nc).length, 0)
      | none => (0, 0)
    | Operation.delete =>
      match oldContent with
      | some oc => if oc = "" then (0, 0) else (0, (splitNl oc).length)
      | none => (0, 0)
    | Operation.update =>
      match oldContent, newContent with
      | some oc, some nc =>
        if oc = "" ∨ nc = "" then (0, 0)
        else
          let d := calculateLineDiff oc nc
          (d.added, d.removed)
      | _, _ => (0, 0)
  let fs : FileChangeStats :=
    { filePath := filePath, addedLines := counts.1,
      removedLines := counts.2, operation := op }
  ({ s with
      fileChanges := s.fileChanges ++ [fs],
      totalFilesChanged := s.totalFilesChanged + 1,
      totalAddedLines := s.totalAddedLines + counts.1,
      totalRemovedLines := s.totalRemovedLines + counts.2 }, fs)

/-- Modelled from the spec and used only to compare with zipDifferCount:
the number of line indices, below both lengths, whose contents differ. -/
def differingIndexCount (l1 l2 : List String) : Nat :=
  ((List.range (min l1.length l2.length)).filter
    (fun i => l1.get? i ≠ l2.get? i)).length

/-- One policy rule: the declared source name and the ordered path list,
as read from the policy-service JSON response. -/
structure Rule where
  sourceName : String
  paths : List String
deriving DecidableEq, Repr

/-- One rule group of a policy response (one element of the response array). -/
structure RuleGroup where
  rules : List Rule
deriving DecidableEq, Repr

/-- Why a rule was chosen, mirroring the reason strings of the source. -/
inductive Reason
  | explicitName
  | wildcardName
  | fallbackFirstUrl
deriving DecidableEq, Repr

/-- A chosen endpoint candidate. -/
structure Chosen where
  url : String
  reason : Reason
deriving DecidableEq, Repr

/-- Embeds the JS trim on a character list: drop whitespace at both ends. -/
def trimCh (l : List Char) : List Char :=
  ((l.dropWhile Char.isWhitespace).reverse.dropWhile Char.isWhitespace).reverse

/-- Embeds the JS trim on a string. -/
def jsTrim (s : String) : String :=
  String.mk (trimCh s.data)

/-- Embeds the JS lower-casing of a string. -/
def jsToLower (s : String) : String :=
  String.mk (s.data.map Char.toLower)

/-- Embeds the rule-name normalization: trim then lower-case. -/
def normName (s : String) : String :=
  jsToLower (jsTrim s)

/-- Anchored match of a literal pattern at the start of a character list. -/
def startsWithList (l pat : List Char) : Bool :=
  l.take pat.length == pat

/-- Embeds the case-insensitive anchored http or https URL test. -/
def isHttpUrl (s : String) : Bool :=
  startsWithList (s.data.map Char.toLower) "http://".data ||
    startsWithList (s.data.map Char.toLower) "https://".data

/-- Embeds reading and trimming the first path entry of a rule. -/
def firstPath (r : Rule) : String :=
  jsTrim (r.paths.headD "")

/-- A rule qualifies when its path list is non-empty and its first
(trimmed) path is an absolute http or https URL. -/
def ruleQualifies (r : Rule) : Bool :=
  !r.paths.isEmpty && isHttpUrl (firstPath r)

/-- Embeds the inner rule loop of getMetricsRemoteUrl
(lineChangeRecorder.ts): a qualifying rule whose normalized name is
copilot-metrics or the wildcard is chosen at once and the loop breaks;
otherwise the first qualifying rule is kept as a fallback candidate and
the scan continues. -/
def scanRules : List Rule → Option Chosen → Option Chosen
  | [], chosen => chosen
  | r :: rest, chosen =>
    if ruleQualifies r then
      if normName r.sourceName = "copilot-metrics" then
        some { url := firstPath r, reason := Reason.explicitName }
      else if normName r.sourceName = "*" then
        some { url := firstPath r, reason := Reason.wildcardName }
      else
        match chosen with
        | none =>
          scanRules rest (some { url := firstPath r, reason := Reason.fallbackFirstUrl })
        | some c => scanRules rest (some c)
    else scanRules rest chosen

/-- Embeds the outer group loop of getMetricsRemoteUrl: after each group
the loop breaks as soon as anything has been chosen. -/
def scanGroups : List RuleGroup → Option Chosen → Option Chosen
  | [], chosen => chosen
  | g :: rest, chosen =>
    match scanRules g.rules chosen with
    | some c => some c
    | none => scanGroups rest none

/-- Embeds the rule loop of processContentExclusionData (part_000): it
returns on the FIRST qualifying rule, whatever its name, with a reason
depending on the name. -/
def processRules : List Rule → Option Chosen
  | [] => none
  | r :: rest =>
    if ruleQualifies r then
      if normName r.sourceName = "copilot-metrics" then
        some { url := firstPath r, reason := Reason.explicitName }
      else if normName r.sourceName = "*" then
        some { url := firstPath r, reason := Reason.wildcardName }
      else
        some { url := firstPath r, reason := Reason.fallbackFirstUrl }
    else processRules rest

/-- Embeds processContentExclusionData (part_000): scans the groups in
order and returns the first group's verdict, when any. -/
def processContentExclusionData : List RuleGroup → Option Chosen
  | [] => none
  | g :: rest =>
    match processRules g.rules with
    | some c => some c
    | none => processContentExclusionData rest

/-- The module-level endpoint cache value: undefined (unknown), null
(no valid rule) or an endpoint string. -/
inductive CacheState
  | unknown
  | noEndpoint
  | url (u : String)
deriving DecidableEq, Repr

/-- Embeds the cached early return, the expression returning the cache
value or undefined: an empty cached string also yields no endpoint. -/
def cachedResult : CacheState → Option String
  | CacheState.unknown => none
  | CacheState.noEndpoint => none
  | CacheState.url u => if u = "" then none else some u

/-- The environment of the endpoint resolver: whether the CAPI client and
git services are present, the gathered (normalized) git remote fetch URLs,
and the policy-service query capability.  A query returns none on a
network failure or a non-ok response. -/
structure PolicyEnv where
  hasServices : Bool
  fetchUrls : List String
  query : List String → Option (List RuleGroup)

/-- Splits the fetch URLs into batches of at most ten, as the batch loop
over slice indices does. -/
def batches10 (l : List String) : List (List String) :=
  if l.isEmpty then []
  else l.take 10 :: batches10 (l.drop 10)
termination_by l.length
decreasing_by
  simp only [List.length_drop]
  cases l with
  | nil => simp_all
  | cons a t => simp [Nat.lt_succ_iff]

/-- Embeds the batch loop: query each batch in turn, scan its rule groups,
and stop at the first batch for which something was chosen.  Also returns
the list of repo lists actually sent to the policy service. -/
def scanBatchesQ (query : List String → Option (List RuleGroup)) :
    List (List String) → Option Chosen × List (List String)
  | [] => (none, [])
  | b :: rest =>
    let res :=
      match query b with
      | none => none
      | some data => scanGroups data none
    match res with
    | some c => (some c, [b])
    | none =>
      let r := scanBatchesQ query rest
      (r.1, b :: r.2)

/-- Outcome of one resolver call: the new cache value, the returned
endpoint, and the repo lists queried during the call. -/
structure ResolveOutcome where
  cache : CacheState
  result : Option String
  queries : List (List String)
deriving Repr

/-- Embeds getMetricsRemoteUrl of lineChangeRecorder.ts (the per-file
variant): cached non-unknown values return at once with no query; with
missing services, or zero gathered fetch URLs, the cache is set to the
no-endpoint value and no query is made; otherwise the batched repo scan
decides, and its verdict is cached. -/
def getMetricsRemoteUrlPF (cache : CacheState) (env : PolicyEnv) : ResolveOutcome :=
  match cache with
  | CacheState.noEndpoint => { cache := cache, result := none, queries := [] }
  | CacheState.url u => { cache := cache, result := cachedResult (CacheState.url u), queries := [] }
  | CacheState.unknown =>
    if env.hasServices then
      if env.fetchUrls.isEmpty then
        { cache := CacheState.noEndpoint, result := none, queries := [] }
      else
        let r := scanBatchesQ env.query (batches10 env.fetchUrls)
        match r.1 with
        | some c => { cache := CacheState.url c.url, result := some c.url, queries := r.2 }
        | none => { cache := CacheState.noEndpoint, result := none, queries := r.2 }
    else { cache := CacheState.noEndpoint, result := none, queries := [] }

/-- The well-known placeholder repository URL of part_000, used purely to
trigger enterprise-level policy evaluation. -/
def fakeRepoUrl : String := "https://github.com/fake/fake.git"

/-- Embeds getMetricsRemoteUrl of part_000 (the session-end variant):
after the batched repo scan (skipped when no fetch URLs were gathered),
a missing verdict triggers a query with an empty repository list and, when
that yields nothing, one more query with the single placeholder repository
URL; both responses go through processContentExclusionData. -/
def getMetricsRemoteUrlSE (cache : CacheState) (env : PolicyEnv) : ResolveOutcome :=
  match cache with
  | CacheState.noEndpoint => { cache := cache, result := none, queries := [] }
  | CacheState.url u => { cache := cache, result := cachedResult (CacheState.url u), queries := [] }
  | CacheState.unknown =>
    if env.hasServices then
      let r :=
        if env.fetchUrls.isEmpty then ((none : Option Chosen), ([] : List (List String)))
        else scanBatchesQ env.query (batches10 env.fetchUrls)
      match r.1 with
      | some c => { cache := CacheState.url c.url, result := some c.url, queries := r.2 }
      | none =>
        match (env.query []).bind processContentExclusionData with
        | some c =>
          { cache := CacheState.url c.url, result := some c.url, queries := r.2 ++ [[]] }
        | none =>
          match (env.query [fakeRepoUrl]).bind processContentExclusionData with
          | some c =>
            { cache := CacheState.url c.url, result := some c.url,
              queries := r.2 ++ [[], [fakeRepoUrl]] }
          | none =>
            { cache := CacheState.noEndpoint, result := none,
              queries := r.2 ++ [[], [fakeRepoUrl]] }
    else { cache := CacheState.noEndpoint, result := none, queries := [] }

/-- Delivery actions a completed record can trigger. -/
inductive PersistAction
  | postRemote (url : String)
  | writeLocalFile
deriving DecidableEq, Repr

/-- Embeds the delivery decision of wireLineChangeRecorder's per-file
completion task (lineChangeRecorder.ts): when the resolver yields a URL
the record is POSTed; in the else branch the call writing the local JSON
file is commented out in the source, so nothing is persisted. -/
def deliverRecord (remoteUrl : Option String) : List PersistAction :=
  match remoteUrl with
  | some u => [PersistAction.postRemote u]
  | none => []

/-- The per-stream mutable state of wireLineChangeRecorder: touched file
keys, the persisted set, the queued (not yet completed) deferred tasks in
order, and the keys for which a record has been emitted so far (emission
events, in order, with multiplicity). -/
structure RecorderState where
  touched : List String
  persisted : List String
  pending : List String
  emitted : List String
deriving DecidableEq, Repr

/-- The empty state at stream creation. -/
def initRecorderState : RecorderState :=
  { touched := [], persisted := [], pending := [], emitted := [] }

/-- Embeds the synchronous handler for a text-edit part whose edit is done:
the key is recorded as touched; when the key is not in the persisted set a
deferred task is queued.  The persisted set is NOT updated here — the
source adds the key only at the end of the deferred task. -/
def onEditDone (s : RecorderState) (key : String) : RecorderState :=
  let s1 :=
    { s with touched := if key ∈ s.touched then s.touched else s.touched ++ [key] }
  if key ∈ s1.persisted then s1
  else { s1 with pending := s1.pending ++ [key] }

/-- Embeds the completion of the earliest queued deferred task.  hasDelta
abstracts computeSingleFileDelta returning a non-empty delta: when false
the task returns early, emitting nothing and leaving the persisted set
unchanged; when true the record is emitted and the key is then added to
the persisted set. -/
def completeNextTask (hasDelta : String → Bool) (s : RecorderState) : RecorderState :=
  match s.pending with
  | [] => s
  | key :: rest =>
    if hasDelta key then
      { s with
          pending := rest,
          emitted := s.emitted ++ [key],
          persisted := s.persisted ++ [key] }
    else { s with pending := rest }

/-- Events of the cooperative schedule: a done-marked edit event for a key,
or the completion of the earliest queued deferred task. -/
inductive RecorderEvent
  | editDone (key : String)
  | taskComplete
deriving DecidableEq, Repr

/-- Runs a schedule of events from a state. -/
def runEvents (hasDelta : String → Bool) (s : RecorderState) :
    List RecorderEvent → RecorderState
  | [] => s
  | RecorderEvent.editDone key :: rest =>
    runEvents hasDelta (onEditDone s key) rest
  | RecorderEvent.taskComplete :: rest =>
    runEvents hasDelta (completeNextTask hasDelta s) rest

/-- Embeds the polling loop of getStableSnapshot over an abstract sequence
of document reads: from the read at index i with the given remaining retry
budget, return the index of the read the loop returns.  A budget step
re-reads at index i plus one and returns it when it equals the previous
read; an exhausted budget returns the last read. -/
def stableFrom (reads : Nat → String) (i : Nat) : Nat → Nat
  | 0 => i
  | b + 1 => if reads (i + 1) = reads i then i + 1 else stableFrom reads (i + 1) b

/-- Embeds getStableSnapshot: one initial read at index zero, then up to
ten re-reads (maxTries), returning the index of the read returned. -/
def getStableSnapshotIdx (reads : Nat → String) : Nat :=
  stableFrom reads 0 10

theorem zipDifferCount_eq_differingIndexCount (l1 l2 : List String) :
    zipDifferCount l1 l2 = differingIndexCount l1 l2 := by
  induction l1 generalizing l2 with
  | nil => simp [zipDifferCount, differingIndexCount]
  | cons a t1 ih =>
    cases l2 with
    | nil => simp [zipDifferCount, differingIndexCount]
    | cons b t2 =>
      have h := ih t2
      simp only [zipDifferCount, differingIndexCount] at h ⊢
      rw [List.zip_cons_cons, List.countP_cons, h]
      simp only [List.length_cons, Nat.succ_min_succ, List.range_succ_eq_map,
        List.filter_cons, List.get?_cons_zero, List.get?_cons_succ,
        List.filter_map, List.length_map, Function.comp_def,
        Nat.succ_eq_add_one]
      by_cases hab : a = b
      · simp [hab]
      · simp [hab]

theorem consHead_ne_nil (c : Char) (ll : List (List Char)) : consHead c ll ≠ [] := by
  cases ll <;> simp [consHead]

theorem splitLinesCh_ne_nil (l : List Char) : splitLinesCh l ≠ [] := by
  rw [splitLinesCh.eq_def]
  split
  · simp
  · simp
  · simp
  · exact consHead_ne_nil _ _
  · exact consHead_ne_nil _ _

theorem splitLinesCh_lf (rest : List Char) :
    splitLinesCh ('\n' :: rest) = [] :: splitLinesCh rest := by
  rfl

theorem splitLinesCh_crlf (rest : List Char) :
    splitLinesCh ('\r' :: '\n' :: rest) = [] :: splitLinesCh rest := by
  rfl

theorem splitLinesCh_cr (rest : List Char) (hne : ∀ r2, rest ≠ '\n' :: r2) :
    splitLinesCh ('\r' :: rest) = consHead '\r' (splitLinesCh rest) := by
  rw [splitLinesCh.eq_def]
  split
  · simp_all
  · simp_all
  · rename_i heq
    injection heq with h1 h2
    exact absurd h2 (hne _)
  · rename_i heq
    injection heq with h1 h2
    subst h2
    rfl
  · rename_i hcon heq
    injection heq with h1 h2
    subst h1; subst h2
    rfl

theorem splitLinesCh_other (c : Char) (rest : List Char) (h1 : c ≠ '\n') (h2 : c ≠ '\r') :
    splitLinesCh (c :: rest) = consHead c (splitLinesCh rest) := by
  rw [splitLinesCh.eq_def]
  split
  · simp_all
  · rename_i heq
    injection heq with ha hb
    exact absurd ha.symm (Ne.symm h1)
  · rename_i heq
    injection heq with ha hb
    exact absurd ha.symm (Ne.symm h2)
  · rename_i heq
    injection heq with ha hb
    exact absurd ha.symm (Ne.symm h2)
  · rename_i hcon heq
    injection heq with ha hb
    subst ha; subst hb
    rfl

theorem splitLinesCh_two_le_of_last_lf (l : List Char) (h : l.getLast? = some '\n') :
    2 ≤ (splitLinesCh l).length := by
  induction l using splitLinesCh.induct with
  | case1 => simp at h
  | case2 rest ih =>
    have h2 : 0 < (splitLinesCh rest).length :=
      List.length_pos.mpr (splitLinesCh_ne_nil rest)
    rw [splitLinesCh_lf]
    simp only [List.length_cons]
    omega
  | case3 rest ih =>
    have h2 : 0 < (splitLinesCh rest).length :=
      List.length_pos.mpr (splitLinesCh_ne_nil rest)
    rw [splitLinesCh_crlf]
    simp only [List.length_cons]
    omega
  | case4 rest hne ih =>
    cases rest with
    | nil =>
      rw [List.getLast?_singleton] at h
      injection h with h
      exact absurd h (by decide)
    | cons y ys =>
      rw [List.getLast?_cons_cons] at h
      have hlen := ih h
      rw [splitLinesCh_cr _ (fun r2 heq => hne r2 heq)]
      cases hs : splitLinesCh (y :: ys) with
      | nil => exact absurd hs (splitLinesCh_ne_nil _)
      | cons s ss =>
        rw [hs] at hlen
        simp only [consHead, List.length_cons] at hlen ⊢
        omega
  | case5 c rest hc1 hc2 hc3 ih =>
    cases rest with
    | nil =>
      rw [List.getLast?_singleton] at h
      injection h with h
      exact absurd h (fun hh => hc1 hh)
    | cons y ys =>
      rw [List.getLast?_cons_cons] at h
      have hlen := ih h
      rw [splitLinesCh_other c _ (fun hh => hc1 hh) (fun hh => hc3 hh)]
      cases hs : splitLinesCh (y :: ys) with
      | nil => exact absurd hs (splitLinesCh_ne_nil _)
      | cons s ss =>
        rw [hs] at hlen
        simp only [consHead, List.length_cons] at hlen ⊢
        omega

theorem getLast_empty_of_consHead (c : Char) (hc : c ≠ '\n') (rest : List Char)
    (hsplit : splitLinesCh (c :: rest) = consHead c (splitLinesCh rest))
    (ih : (splitLinesCh rest).getLast? = some ([] : List Char) ↔
      (rest = [] ∨ rest.getLast? = some '\n')) :
    ((splitLinesCh (c :: rest)).getLast? = some ([] : List Char)) ↔
      ((c :: rest) = [] ∨ (c :: rest).getLast? = some '\n') := by
  rw [hsplit]
  cases hr : rest with
  | nil =>
    subst hr
    simp only [splitLinesCh, consHead, List.getLast?_singleton,
      List.cons_ne_nil, false_or, Option.some.injEq]
    constructor
    · intro h
      exact absurd h (by simp)
    · intro h
      exact absurd h hc
  | cons y ys =>
    subst hr
    cases hs : splitLinesCh (y :: ys) with
    | nil => exact absurd hs (splitLinesCh_ne_nil _)
    | cons s ss =>
      rw [hs] at ih
      simp only [consHead]
      rw [List.getLast?_cons_cons]
      cases ss with
      | nil =>
        simp only [List.getLast?_singleton, Option.some.injEq]
        constructor
        · intro h
          exact absurd h (by simp)
        · intro h
          rcases h with h | h
          · exact absurd h (by simp)
          · have h2 := splitLinesCh_two_le_of_last_lf (y :: ys) h
            rw [hs] at h2
            simp at h2
      | cons s2 ss2 =>
        rw [List.getLast?_cons_cons] at ih
        rw [List.getLast?_cons_cons, ih]
        simp

theorem splitLinesCh_getLast_empty (l : List Char) :
    ((splitLinesCh l).getLast? = some ([] : List Char)) ↔
      (l = [] ∨ l.getLast? = some '\n') := by
  induction l using splitLinesCh.induct with
  | case1 => simp [splitLinesCh]
  | case2 rest ih =>
    rw [splitLinesCh_lf]
    cases hr : rest with
    | nil => simp [splitLinesCh]
    | cons y ys =>
      subst hr
      cases hs : splitLinesCh (y :: ys) with
      | nil => exact absurd hs (splitLinesCh_ne_nil _)
      | cons s ss =>
        rw [hs] at ih
        rw [List.getLast?_cons_cons, List.getLast?_cons_cons]
        simpa using ih
  | case3 rest ih =>
    rw [splitLinesCh_crlf]
    cases hr : rest with
    | nil => simp [splitLinesCh]
    | cons y ys =>
      subst hr
      cases hs : splitLinesCh (y :: ys) with
      | nil => exact absurd hs (splitLinesCh_ne_nil _)
      | cons s ss =>
        rw [hs] at ih
        rw [List.getLast?_cons_cons, List.getLast?_cons_cons,
          List.getLast?_cons_cons]
        simpa using ih
  | case4 rest hne ih =>
    exact getLast_empty_of_consHead '\r' (by decide) rest
      (splitLinesCh_cr rest (fun r2 heq => hne r2 heq)) ih
  | case5 c rest hc1 hc2 hc3 ih =>
    exact getLast_empty_of_consHead c (fun hh => hc1 hh) rest
      (splitLinesCh_other c rest (fun hh => hc1 hh) (fun hh => hc3 hh)) ih

theorem jsLineCountNewFile_eq_specLineCount (s : String) (h : s ≠ "") :
    jsLineCountNewFile s = specLineCount s := by
  have hl : s.data ≠ [] := by
    intro hd
    exact h (by cases s with | mk d => simp at hd; simp [hd])
  have hiff := splitLinesCh_getLast_empty s.data
  unfold jsLineCountNewFile specLineCount endsWithLf
  by_cases hend : s.data.getLast? = some '\n'
  · have h1 : (splitLinesCh s.data).getLast? = some ([] : List Char) :=
      hiff.mpr (Or.inr hend)
    simp [hend, h1]
  · have h1 : (splitLinesCh s.data).getLast? ≠ some ([] : List Char) := by
      intro hcon
      rcases hiff.mp hcon with h2 | h2
      · exact hl h2
      · exact hend h2
    simp [hend, h1]

/-- Claim C1 counterexample: a response whose rule list holds a wildcard
rule before a copilot-metrics rule (both with absolute http URLs as first
paths) makes both getMetricsRemoteUrl's in-line scan and
processContentExclusionData select the wildcard URL, not the
copilot-metrics URL — the scan short-circuits on the wildcard; and in
processContentExclusionData even an earlier unnamed qualifying rule
supersedes a later copilot-metrics rule. -/
theorem c1_counterexample :
    (scanGroups [{ rules := [{ sourceName := "*", paths := ["http://a"] },
        { sourceName := "copilot-metrics", paths := ["http://b"] }] }] none) =
      some { url := "http://a", reason := Reason.wildcardName } ∧
    (processContentExclusionData [{ rules := [{ sourceName := "*", paths := ["http://a"] },
        { sourceName := "copilot-metrics", paths := ["http://b"] }] }]) =
      some { url := "http://a", reason := Reason.wildcardName } ∧
    (processContentExclusionData [{ rules := [{ sourceName := "unrelated", paths := ["http://c"] },
        { sourceName := "copilot-metrics", paths := ["http://b"] }] }]) =
      some { url := "http://c", reason := Reason.fallbackFirstUrl } ∧
    ("http://a" : String) ≠ "http://b" ∧ ("http://c" : String) ≠ "http://b" := by
  decide

/-- Claim C1 (amended): the scan short-circuits on the first rule named
copilot-metrics or the wildcard, so copilot-metrics is selected when it
appears before the wildcard rule and the wildcard URL is selected when the
wildcard appears first; in getMetricsRemoteUrl's in-line scan an
explicit-name match still supersedes an earlier unnamed fallback
candidate of the same group. -/
theorem c1_amended_scan_order (a b : String)
    (ha : isHttpUrl (jsTrim a) = true) (hb : isHttpUrl (jsTrim b) = true) :
    scanGroups [{ rules := [{ sourceName := "copilot-metrics", paths := [b] },
        { sourceName := "*", paths := [a] }] }] none =
      some { url := jsTrim b, reason := Reason.explicitName } ∧
    scanGroups [{ rules := [{ sourceName := "*", paths := [a] },
        { sourceName := "copilot-metrics", paths := [b] }] }] none =
      some { url := jsTrim a, reason := Reason.wildcardName } ∧
    (∀ nm c : String, normName nm ≠ "copilot-metrics" → normName nm ≠ "*" →
      isHttpUrl (jsTrim c) = true →
      scanGroups [{ rules := [{ sourceName := nm, paths := [c] },
          { sourceName := "copilot-metrics", paths := [b] }] }] none =
        some { url := jsTrim b, reason := Reason.explicitName }) ∧
    processContentExclusionData [{ rules := [{ sourceName := "copilot-metrics", paths := [b] },
        { sourceName := "*", paths := [a] }] }] =
      some { url := jsTrim b, reason := Reason.explicitName } ∧
    processContentExclusionData [{ rules := [{ sourceName := "*", paths := [a] },
        { sourceName := "copilot-metrics", paths := [b] }] }] =
      some { url := jsTrim a, reason := Reason.wildcardName } := by
  have hm : normName "copilot-metrics" = "copilot-metrics" := by decide
  have hw : normName "*" = "*" := by decide
  have hwm : ("*" : String) ≠ "copilot-metrics" := by decide
  refine ⟨?_, ?_, ?_, ?_, ?_⟩
  · simp [scanGroups, scanRules, ruleQualifies, firstPath, hm, hb]
  · simp [scanGroups, scanRules, ruleQualifies, firstPath, hm, hw, hwm, ha, hb]
  · intro nm c hnm1 hnm2 hc
    simp [scanGroups, scanRules, ruleQualifies, firstPath, hm, hnm1, hnm2, hc, hb]
  · simp [processContentExclusionData, processRules, ruleQualifies, firstPath, hm, hb]
  · simp [processContentExclusionData, processRules, ruleQualifies, firstPath,
      hm, hw, hwm, ha, hb]

/-- Claim C1 witness: the amended theorem at concrete URLs. -/
theorem c1_witness :
    scanGroups [{ rules := [{ sourceName := "copilot-metrics", paths := ["http://b"] },
        { sourceName := "*", paths := ["http://a"] }] }] none =
      some { url := "http://b", reason := Reason.explicitName } := by
  have h := (c1_amended_scan_order "http://a" "http://b" (by decide) (by decide)).1
  rw [h]
  decide

/-- Claim C2: computeSingleFileDelta (part_000) on an empty original and a
non-empty modified text returns removed zero and added the number of lines
of the modified text obtained by splitting on line breaks, where a
trailing line break does not contribute an extra (empty) line. -/
theorem c2_new_file_creation (diff : String → String → List Change)
    (modified : String) (h : modified ≠ "") :
    computeSingleFileDeltaSE diff "" modified =
      some { added := specLineCount modified, removed := 0 } := by
  unfold computeSingleFileDeltaSE
  rw [if_pos ⟨rfl, h⟩, jsLineCountNewFile_eq_specLineCount modified h]

/-- Claim C2 witness: the new-file creation case at the concrete example of
the claim, yielding two added lines and zero removed. -/
theorem c2_witness :
    computeSingleFileDeltaSE (fun _ _ => []) "" "line1\nline2\n" =
      some { added := 2, removed := 0 } := by
  have h := c2_new_file_creation (fun _ _ => []) "line1\nline2\n" (by decide)
  rw [h]
  decide

/-- Claim C3 counterexample: AgentFileChangeTracker.trackFileChange on an
update whose old and new contents are identical computes a zero/zero delta
yet still pushes a record and counts the file, so a zero-delta file IS
accumulated by this component. -/
theorem c3_counterexample :
    (trackFileChange (createNewSession "s" "t") "/f" Operation.update
        (some "a") (some "a")).2.addedLines = 0 ∧
    (trackFileChange (createNewSession "s" "t") "/f" Operation.update
        (some "a") (some "a")).2.removedLines = 0 ∧
    (trackFileChange (createNewSession "s" "t") "/f" Operation.update
        (some "a") (some "a")).1.fileChanges.length = 1 ∧
    (trackFileChange (createNewSession "s" "t") "/f" Operation.update
        (some "a") (some "a")).1.totalFilesChanged = 1 := by
  decide

/-- Claim C3 (amended): in the lineChangeRecorder pipeline a zero/zero
delta is discarded — computeSingleFileDelta of either variant returns the
no-change value when the diff spans sum to zero/zero (in particular for
identical texts), and a completion task seeing no delta emits nothing —
but the AgentFileChangeTracker accumulator has no such guard. -/
theorem c3_amended (diff : String → String → List Change) (original modified : String)
    (h : computeAdditionsAndDeletions (diff original modified) =
      { added := 0, removed := 0 }) :
    computeSingleFileDeltaPF diff original modified = none ∧
    (original = modified → computeSingleFileDeltaSE diff original modified = none) ∧
    (∀ (hasDelta : String → Bool) (s : RecorderState),
      (∀ k, hasDelta k = false) →
      (completeNextTask hasDelta s).emitted = s.emitted) := by
  refine ⟨?_, ?_, ?_⟩
  · simp [computeSingleFileDeltaPF, h]
  · intro heq
    subst heq
    rcases eq_or_ne original "" with h1 | h1
    · subst h1
      simp [computeSingleFileDeltaSE, h]
    · simp [computeSingleFileDeltaSE, h, h1]
  · intro hasDelta s hall
    unfold completeNextTask
    cases hp : s.pending with
    | nil => rfl
    | cons key rest => simp [hall key]

/-- Claim C3 witness: the amended theorem at identical concrete texts with
a diff capability returning no spans. -/
theorem c3_witness :
    computeSingleFileDeltaPF (fun _ _ => []) "x" "x" = none ∧
    computeSingleFileDeltaSE (fun _ _ => []) "x" "x" = none := by
  have h := c3_amended (fun _ _ => []) "x" "x" (by decide)
  exact ⟨h.1, h.2.1 rfl⟩

/-- Claim C4 counterexample: two done-marked edit events for the same file
arriving before either deferred task completes each pass the persisted-set
check (the key is only added to the persisted set when a task finishes),
so two records are emitted for the file — more than one. -/
theorem c4_counterexample :
    ¬ ((runEvents (fun _ => true) initRecorderState
        [RecorderEvent.editDone "f", RecorderEvent.editDone "f",
          RecorderEvent.taskComplete, RecorderEvent.taskComplete]).emitted.count "f" ≤ 1) := by
  decide

/-- Claim C4 (amended): the file is marked persisted only when its deferred
task completes, not upon scheduling; a done signal for an already-persisted
file schedules nothing, so a second done signal arriving after the first
task has completed produces no second record, while one arriving before
completion can (see the counterexample). -/
theorem c4_amended :
    (∀ (s : RecorderState) (key : String), key ∈ s.persisted →
      (onEditDone s key).pending = s.pending ∧
      (onEditDone s key).emitted = s.emitted ∧
      (onEditDone s key).persisted = s.persisted) ∧
    (∀ (hasDelta : String → Bool) (key : String), hasDelta key = true →
      (runEvents hasDelta initRecorderState
        [RecorderEvent.editDone key, RecorderEvent.taskComplete,
          RecorderEvent.editDone key, RecorderEvent.taskComplete]).emitted = [key]) := by
  constructor
  · intro s key hmem
    simp [onEditDone, hmem]
  · intro hasDelta key hkey
    simp [runEvents, onEditDone, completeNextTask, initRecorderState, hkey]

/-- Claim C4 witness: both amended parts at a concrete state and key. -/
theorem c4_witness :
    (onEditDone { touched := ["f"], persisted := ["f"], pending := [], emitted := ["f"] } "f").pending = [] ∧
    (runEvents (fun _ => true) initRecorderState
      [RecorderEvent.editDone "f", RecorderEvent.taskComplete,
        RecorderEvent.editDone "f", RecorderEvent.taskComplete]).emitted = ["f"] := by
  constructor
  · exact (c4_amended.1 { touched := ["f"], persisted := ["f"], pending := [], emitted := ["f"] } "f" (by decide)).1
  · exact c4_amended.2 (fun _ => true) "f" rfl

/-- Claim C5: the endpoint cache of getMetricsRemoteUrl
(lineChangeRecorder.ts) is three-valued, and once it holds a non-unknown
value a call returns the cached outcome (a URL, or none for the cached
no-endpoint value) with no policy-service query and without changing the
cache; moreover any call starting from the unknown state leaves the cache
non-unknown. -/
theorem c5_cache_stable (cache : CacheState) (env : PolicyEnv)
    (h : cache ≠ CacheState.unknown) :
    (getMetricsRemoteUrlPF cache env).queries = [] ∧
    (getMetricsRemoteUrlPF cache env).cache = cache ∧
    (getMetricsRemoteUrlPF cache env).result = cachedResult cache ∧
    (∀ env2 : PolicyEnv,
      (getMetricsRemoteUrlPF CacheState.unknown env2).cache ≠ CacheState.unknown) := by
  refine ⟨?_, ?_, ?_, ?_⟩
  · cases cache with
    | unknown => exact absurd rfl h
    | noEndpoint => rfl
    | url u => rfl
  · cases cache with
    | unknown => exact absurd rfl h
    | noEndpoint => rfl
    | url u => rfl
  · cases cache with
    | unknown => exact absurd rfl h
    | noEndpoint => rfl
    | url u => rfl
  · intro env2
    simp only [getMetricsRemoteUrlPF]
    split_ifs with h1 h2
    · simp
    · split <;> simp
    · simp

/-- Claim C5 witness: a cached no-endpoint outcome is returned with no
query and the cache is untouched. -/
theorem c5_witness :
    (getMetricsRemoteUrlPF CacheState.noEndpoint
      { hasServices := true, fetchUrls := [], query := fun _ => none }).queries = [] ∧
    (getMetricsRemoteUrlPF CacheState.noEndpoint
      { hasServices := true, fetchUrls := [], query := fun _ => none }).result = none := by
  have h := c5_cache_stable CacheState.noEndpoint
    { hasServices := true, fetchUrls := [], query := fun _ => none } (by decide)
  exact ⟨h.1, h.2.2.1⟩

/-- Claim C7 counterexample: when the resolver yields no endpoint the
completion task performs no delivery action at all — in particular no
local JSON file is written (the local-write call is commented out in the
source), contradicting the claimed local-file fallback. -/
theorem c7_counterexample :
    deliverRecord none = [] ∧
    PersistAction.writeLocalFile ∉ deliverRecord none := by
  decide

/-- Claim C7 (amended): remote delivery is attempted first — a resolved
endpoint yields exactly one POST action — and when no endpoint resolves
the record is not persisted anywhere; writeSingleFileRecord exists in the
source but its call site is commented out. -/
theorem c7_amended :
    (∀ u : String, deliverRecord (some u) = [PersistAction.postRemote u]) ∧
    deliverRecord none = [] :=
  ⟨fun _ => rfl, rfl⟩

theorem stableFrom_le (reads : Nat → String) (i b : Nat) :
    stableFrom reads i b ≤ i + b := by
  induction b generalizing i with
  | zero => simp [stableFrom]
  | succ b ih =>
    simp only [stableFrom]
    split
    · omega
    · have := ih (i + 1)
      omega

theorem stableFrom_exhaust (reads : Nat → String) (b i : Nat)
    (h : ∀ j, j < b → reads (i + j + 1) ≠ reads (i + j)) :
    stableFrom reads i b = i + b := by
  induction b generalizing i with
  | zero => simp [stableFrom]
  | succ b ih =>
    have h0 : reads (i + 1) ≠ reads i := by
      have := h 0 (by omega)
      simpa using this
    simp only [stableFrom]
    rw [if_neg h0]
    have step : ∀ j, j < b → reads (i + 1 + j + 1) ≠ reads (i + 1 + j) := by
      intro j hj
      have h2 := h (j + 1) (by omega)
      have e1 : i + (j + 1) = i + 1 + j := by omega
      rw [e1] at h2
      exact h2
    have := ih (i + 1) step
    omega

theorem stableFrom_stops (reads : Nat → String) (k : Nat) :
    ∀ i b : Nat, k < b →
    (∀ j, j < k → reads (i + j + 1) ≠ reads (i + j)) →
    reads (i + k + 1) = reads (i + k) →
    stableFrom reads i b = i + k + 1 := by
  induction k with
  | zero =>
    intro i b hb hmin heq
    cases b with
    | zero => omega
    | succ b2 =>
      simp only [Nat.add_zero] at heq
      simp only [stableFrom]
      rw [if_pos heq]
  | succ k ih =>
    intro i b hb hmin heq
    cases b with
    | zero => omega
    | succ b2 =>
      have h0 : reads (i + 1) ≠ reads i := by
        have := hmin 0 (by omega)
        simpa using this
      simp only [stableFrom]
      rw [if_neg h0]
      have hmin2 : ∀ j, j < k → reads (i + 1 + j + 1) ≠ reads (i + 1 + j) := by
        intro j hj
        have h2 := hmin (j + 1) (by omega)
        have e1 : i + (j + 1) = i + 1 + j := by omega
        rw [e1] at h2
        exact h2
      have heq2 : reads (i + 1 + k + 1) = reads (i + 1 + k) := by
        have e1 : i + (k + 1) = i + 1 + k := by omega
        rw [e1] at heq
        exact heq
      have := ih (i + 1) b2 (by omega) hmin2 heq2
      omega

/-- Claim C8: getStableSnapshot performs one initial read (index zero) and
at most ten further reads; it returns the read at the first index whose
text equals the previous read's, and when no two consecutive reads among
the eleven agree it returns the last read (index ten).  The returned index
is therefore always at most ten — at most eleven reads. -/
theorem c8_stable_snapshot (reads : Nat → String) :
    getStableSnapshotIdx reads ≤ 10 ∧
    (∀ k, k < 10 → (∀ j, j < k → reads (j + 1) ≠ reads j) →
      reads (k + 1) = reads k → getStableSnapshotIdx reads = k + 1) ∧
    ((∀ k, k < 10 → reads (k + 1) ≠ reads k) → getStableSnapshotIdx reads = 10) := by
  refine ⟨?_, ?_, ?_⟩
  · have := stableFrom_le reads 0 10
    simpa [getStableSnapshotIdx] using this
  · intro k hk hmin heq
    have := stableFrom_stops reads k 0 10 hk
      (fun j hj => by simpa using hmin j hj) (by simpa using heq)
    simpa [getStableSnapshotIdx] using this
  · intro h
    have := stableFrom_exhaust reads 10 0 (fun j hj => by simpa using h j hj)
    simpa [getStableSnapshotIdx] using this

/-- Claim C8 witness: with reads a, b, b, ... the loop settles at the
second re-read (index two), the first index agreeing with its predecessor. -/
theorem c8_witness :
    getStableSnapshotIdx (fun i => if i = 0 then "a" else "b") = 2 := by
  have h := (c8_stable_snapshot (fun i => if i = 0 then "a" else "b")).2.1 1
    (by decide) (by decide) (by decide)
  simpa using h

/-- Claim C9: trackFileChangeWithExactLines is append-only and additive —
each call pushes exactly one entry and adds its counts to the totals — and
accumulating two added and zero removed, then three added and two removed,
from a fresh session yields totals of five added, two removed, and a
fileChanges list of length two. -/
theorem c9_accumulator :
    (∀ (s : SessionStats) (p : String) (op : Operation) (a r : Nat),
      (trackFileChangeWithExactLines s p op a r).1.fileChanges =
        s.fileChanges ++ [(trackFileChangeWithExactLines s p op a r).2] ∧
      (trackFileChangeWithExactLines s p op a r).1.totalFilesChanged =
        s.totalFilesChanged + 1 ∧
      (trackFileChangeWithExactLines s p op a r).1.totalAddedLines =
        s.totalAddedLines + a ∧
      (trackFileChangeWithExactLines s p op a r).1.totalRemovedLines =
        s.totalRemovedLines + r ∧
      (trackFileChangeWithExactLines s p op a r).2 =
        { filePath := p, addedLines := a, removedLines := r, operation := op }) ∧
    ((trackFileChangeWithExactLines
        (trackFileChangeWithExactLines (createNewSession "sid" "ts")
          "file1" Operation.add 2 0).1
        "file2" Operation.update 3 2).1.totalAddedLines = 5 ∧
      (trackFileChangeWithExactLines
        (trackFileChangeWithExactLines (createNewSession "sid" "ts")
          "file1" Operation.add 2 0).1
        "file2" Operation.update 3 2).1.totalRemovedLines = 2 ∧
      (trackFileChangeWithExactLines
        (trackFileChangeWithExactLines (createNewSession "sid" "ts")
          "file1" Operation.add 2 0).1
        "file2" Operation.update 3 2).1.fileChanges.length = 2 ∧
      (trackFileChangeWithExactLines
        (trackFileChangeWithExactLines (createNewSession "sid" "ts")
          "file1" Operation.add 2 0).1
        "file2" Operation.update 3 2).1.totalFilesChanged = 2) := by
  constructor
  · intro s p op a r
    refine ⟨rfl, rfl, rfl, rfl, rfl⟩
  · decide

/-- Claim C10: calculateLineDiff reports only a net line-count difference:
strictly more new lines yields added equal to the count difference and
removed zero, strictly more old lines the symmetric removed-only result,
and only equal counts yield added and removed both equal to the number of
line indices whose contents differ. -/
theorem c10_calculate_line_diff (oldC newC : String) :
    ((splitNl oldC).length < (splitNl newC).length →
      calculateLineDiff oldC newC =
        { added := (splitNl newC).length - (splitNl oldC).length, removed := 0 }) ∧
    ((splitNl newC).length < (splitNl oldC).length →
      calculateLineDiff oldC newC =
        { added := 0, removed := (splitNl oldC).length - (splitNl newC).length }) ∧
    ((splitNl oldC).length = (splitNl newC).length →
      calculateLineDiff oldC newC =
        { added := differingIndexCount (splitNl oldC) (splitNl newC),
          removed := differingIndexCount (splitNl oldC) (splitNl newC) }) := by
  refine ⟨?_, ?_, ?_⟩
  · intro h
    unfold calculateLineDiff
    rw [if_pos h]
  · intro h
    unfold calculateLineDiff
    rw [if_neg (by omega), if_pos h]
  · intro h
    unfold calculateLineDiff
    rw [if_neg (by omega), if_neg (by omega)]
    rw [zipDifferCount_eq_differingIndexCount]
    by_cases hc : 0 < differingIndexCount (splitNl oldC) (splitNl newC)
    · rw [if_pos hc]
    · rw [if_neg hc]
      have : differingIndexCount (splitNl oldC) (splitNl newC) = 0 := by omega
      rw [this]

/-- Claim C10 witness: a two-line to three-line update reports one added
and zero removed even though an existing line changed, and an equal-length
update with one differing line reports one added and one removed. -/
theorem c10_witness :
    calculateLineDiff "a\nb" "x\ny\nz" = { added := 1, removed := 0 } ∧
    calculateLineDiff "a\nb" "x\nb" = { added := 1, removed := 1 } := by
  constructor
  · have h := (c10_calculate_line_diff "a\nb" "x\ny\nz").1 (by decide)
    rw [h]
    decide
  · have h := (c10_calculate_line_diff "a\nb" "x\nb").2.2 (by decide)
    rw [h]
    decide

/-- Claim C6 counterexample: the resolver of lineChangeRecorder.ts, given
zero gathered git remote fetch URLs, issues no policy query at all and
caches the no-endpoint outcome — it never attempts the empty-repository-
list or placeholder-repository lookups — even in an environment whose
policy service would answer those lookups with a copilot-metrics rule
(the session-end variant of the resolver finds it in the same environment). -/
theorem c6_counterexample :
    (getMetricsRemoteUrlPF CacheState.unknown
      { hasServices := true, fetchUrls := [],
        query := fun _ => some [RuleGroup.mk [Rule.mk "copilot-metrics" ["http://m"]]] }).queries = [] ∧
    (getMetricsRemoteUrlPF CacheState.unknown
      { hasServices := true, fetchUrls := [],
        query := fun _ => some [RuleGroup.mk [Rule.mk "copilot-metrics" ["http://m"]]] }).result = none ∧
    (getMetricsRemoteUrlSE CacheState.unknown
      { hasServices := true, fetchUrls := [],
        query := fun _ => some [RuleGroup.mk [Rule.mk "copilot-metrics" ["http://m"]]] }).result = some "http://m" := by
  decide

/-- Claim C6 (amended): the session-end variant of the resolver (part_000)
behaves as claimed — whenever the repo-scoped scan yields no match,
including the zero-fetch-URL case where it is skipped, it queries the
policy service with an empty repository list, and when that yields no
match it retries once with the single placeholder repository URL, applying
processContentExclusionData to each response; the per-file variant in
lineChangeRecorder.ts instead concludes no endpoint with no such lookups
(see the counterexample). -/
theorem c6_amended (env : PolicyEnv) (hs : env.hasServices = true)
    (hr : (if env.fetchUrls.isEmpty then ((none : Option Chosen), ([] : List (List String)))
        else scanBatchesQ env.query (batches10 env.fetchUrls)).1 = none) :
    (getMetricsRemoteUrlSE CacheState.unknown env).queries =
      (if env.fetchUrls.isEmpty then ([] : List (List String))
        else (scanBatchesQ env.query (batches10 env.fetchUrls)).2) ++
        [] :: (if (env.query []).bind processContentExclusionData = none
          then [[fakeRepoUrl]] else []) ∧
    (getMetricsRemoteUrlSE CacheState.unknown env).result =
      (match (env.query []).bind processContentExclusionData with
        | some c => some c.url
        | none => ((env.query [fakeRepoUrl]).bind processContentExclusionData).map Chosen.url) := by
  by_cases hf : env.fetchUrls.isEmpty
  · cases h1 : (env.query []).bind processContentExclusionData with
    | some c => simp [getMetricsRemoteUrlSE, hs, hf, h1]
    | none =>
      cases h2 : (env.query [fakeRepoUrl]).bind processContentExclusionData with
      | some c => simp [getMetricsRemoteUrlSE, hs, hf, h1, h2]
      | none => simp [getMetricsRemoteUrlSE, hs, hf, h1, h2]
  · rw [if_neg hf] at hr
    cases h1 : (env.query []).bind processContentExclusionData with
    | some c => simp [getMetricsRemoteUrlSE, hs, hf, hr, h1]
    | none =>
      cases h2 : (env.query [fakeRepoUrl]).bind processContentExclusionData with
      | some c => simp [getMetricsRemoteUrlSE, hs, hf, hr, h1, h2]
      | none => simp [getMetricsRemoteUrlSE, hs, hf, hr, h1, h2]

/-- Claim C6 witness: zero fetch URLs, an empty-list query answered with an
empty rule-group array (no match), and a placeholder query answered with a
copilot-metrics rule: the session-end resolver issues exactly the two
enterprise queries and resolves the rule's URL. -/
theorem c6_witness :
    (getMetricsRemoteUrlSE CacheState.unknown
      { hasServices := true, fetchUrls := [],
        query := fun l => if l = [] then some [] else
          some [RuleGroup.mk [Rule.mk "copilot-metrics" ["http://m"]]] }).queries =
      [[], [fakeRepoUrl]] ∧
    (getMetricsRemoteUrlSE CacheState.unknown
      { hasServices := true, fetchUrls := [],
        query := fun l => if l = [] then some [] else
          some [RuleGroup.mk [Rule.mk "copilot-metrics" ["http://m"]]] }).result =
      some "http://m" := by
  have h := c6_amended
    { hasServices := true, fetchUrls := [],
      query := fun l => if l = [] then some [] else
        some [RuleGroup.mk [Rule.mk "copilot-metrics" ["http://m"]]] } rfl (by decide)
  constructor
  · rw [h.1]
    decide
  · rw [h.2]
    decide
